import Mathlib

/-!
Verification development for the tap-gmail-csv extraction pipeline.

Each definition in this file is a shallow embedding of a function of the
source tree (`tap_gmail_csv/...`), translated statement by statement.
Machine arithmetic is modelled with `Nat`/`Int`/`Rat`; Python's fallible
constructs (exceptions such as `TypeError`, `ZeroDivisionError` and
`FileNameCannotBeEvaluatedException`) are modelled with `Option`/`Except`.
Definitions whose doc comment starts with `Modelled from the spec:` embed
repository behaviour whose implementation is not part of the source tree
(only its tests and callers are) and follow the specification's words.
-/

namespace TapGmailCsv

/-! ### Character classes (Python `re` classes `\s` and `\w`, ASCII range) -/

/-- Python regex whitespace class `\s` (space, tab, newline, carriage return,
form feed, vertical tab). -/
def wsChar (c : Char) : Bool :=
  c == ' ' || c == '\t' || c == '\n' || c == '\r' || c == '\x0b' || c == '\x0c'

/-- Python regex word class `\w` restricted to the ASCII range:
letters, digits and underscore. -/
def wordChar (c : Char) : Bool :=
  c.isAlphanum || c == '_'

/-! ### excel_handler.generator_wrapper: header-cell normalization
(`excel_handler.py` lines 20-28).  The source applies
`re.sub(r"[^\w\s]", "", key)` (a single-character class, hence a filter),
then `re.sub(r"\s+", "_", key)` (each maximal whitespace run becomes one
underscore), then `.lower()`. -/

/-- Embedding of `re.sub(r"[^\w\s]", "", s)`: drop every character that is
neither a word character nor whitespace. -/
def stripNonWordNonWs (l : List Char) : List Char :=
  l.filter (fun c => wordChar c || wsChar c)

/-- Embedding of `re.sub(r"\s+", "_", s)` as a left-to-right scan: the flag
records whether we are inside a whitespace run whose underscore was already
emitted. -/
def collapseWsGo : List Char → Bool → List Char
  | [], _ => []
  | c :: rest, inRun =>
    if wsChar c then
      if inRun then collapseWsGo rest true
      else '_' :: collapseWsGo rest true
    else c :: collapseWsGo rest false

/-- Embedding of `re.sub(r"\s+", "_", s)`: collapse each maximal whitespace
run (also leading or trailing) to a single underscore. -/
def collapseWsToUnderscore (l : List Char) : List Char :=
  collapseWsGo l false

/-- Embedding of the header-key normalization of
`excel_handler.generator_wrapper`: strip characters that are neither word
characters nor whitespace, collapse whitespace runs to `_`, lowercase. -/
def formatted_key (s : String) : String :=
  String.mk ((collapseWsToUnderscore (stripNonWordNonWs s.data)).map Char.toLower)

/-! ### excel_handler.generator_wrapper: the row dictionary
(`excel_handler.py` lines 7-30).  The generator creates ONE dict
`to_return = {}` before the loop and yields that same object after merging
each data row into it; cell values are modelled as strings. -/

/-- Python dict contents as an insertion-ordered association list with at most
one entry per key. -/
abbrev XDict := List (String × String)

/-- Python `d[k] = v`: overwrite the value in place when the key exists,
append a new entry otherwise. -/
def dictSet (d : XDict) (k v : String) : XDict :=
  if d.any (fun p => p.1 == k) then
    d.map (fun p => if p.1 == k then (k, v) else p)
  else d ++ [(k, v)]

/-- Python `d.get(k)`. -/
def dictGet (d : XDict) (k : String) : Option String :=
  (d.find? (fun p => p.1 == k)).map (fun p => p.2)

/-- Body of the inner `for index, cell in enumerate(row)` loop of
`generator_wrapper`: merge one data row into the shared dict, keyed by the
normalized header cell at the same index. -/
def processRowCore (header : List String) (d : XDict) (row : List String) : XDict :=
  (header.zip row).foldl (fun acc hc => dictSet acc (formatted_key hc.1) hc.2) d

/-- Same as `processRowCore` but modelling the `header_row[index]` lookup
faithfully: a data row longer than the header raises `IndexError` (`none`). -/
def processRow (header : List String) (d : XDict) (row : List String) : Option XDict :=
  if row.length ≤ header.length then some (processRowCore header d row) else none

/-- State of the shared dict after each data row of the workbook: the value
the consumer observes if it inspects the yielded object immediately after
each `yield`. -/
def generatorSnapshotsGo (header : List String) (d : XDict) :
    List (List String) → Option (List XDict)
  | [] => some []
  | row :: rest =>
    match processRow header d row with
    | none => none
    | some d1 =>
      match generatorSnapshotsGo header d1 rest with
      | none => none
      | some ds => some (d1 :: ds)

/-- Embedding of `generator_wrapper` observed eagerly: the dict contents at
each `yield` point.  The first row of the reader is the header row and is
not emitted. -/
def generator_wrapper_snapshots (reader : List (List String)) : Option (List XDict) :=
  match reader with
  | [] => some []
  | header :: dataRows => generatorSnapshotsGo header [] dataRows

/-- Embedding of `generator_wrapper` run to exhaustion: the final contents of
the single shared dict together with the number of `yield`s (every `yield`
returns a reference to that same object). -/
def generator_wrapper_run (reader : List (List String)) : Option (XDict × Nat) :=
  match generator_wrapper_snapshots reader with
  | none => none
  | some ds => some (ds.getLastD [], ds.length)

/-- Embedding of `list(generator_wrapper(reader))`: the list constructor
stores one reference per `yield`, all to the same mutable dict, so after
exhaustion every element dereferences to the final contents. -/
def generator_wrapper_collect (reader : List (List String)) : Option (List XDict) :=
  match generator_wrapper_run reader with
  | none => none
  | some (d, n) => some (List.replicate n d)

/-! ### gmail.gmail_timestamp_to_epoch_seconds (`gmail.py` lines 19-30) and
the watermark conversion of `__init__.sync_table` (lines 102-111). -/

/-- Embedding of `gmail_timestamp_to_epoch_seconds`: the source computes
`int(epoch_time_ms) / 1000`, Python 3 TRUE division, whose value is exact on
the inputs of interest; it is modelled over the rationals. -/
def gmail_timestamp_to_epoch_seconds (epoch_time_ms : ℤ) : ℚ :=
  (epoch_time_ms : ℚ) / 1000

/-- Modelled from the spec: the watermark contract of section 4.7 converts
epoch milliseconds to epoch seconds by integer floor-division by 1000
(truncation).  This variant is absent from the source, which uses true
division. -/
def epoch_ms_to_seconds_floor (epoch_time_ms : ℤ) : ℤ :=
  Int.fdiv epoch_time_ms 1000

/-- Civil date from a count of days since 1970-01-01 (proleptic Gregorian),
used to read an epoch-second watermark as a calendar timestamp. -/
def civilFromDays (z0 : Nat) : Nat × Nat × Nat :=
  let z := z0 + 719468
  let era := z / 146097
  let doe := z % 146097
  let yoe := (doe - doe / 1460 + doe / 36524 - doe / 146096) / 365
  let y := yoe + era * 400
  let doy := doe - (365 * yoe + yoe / 4 - yoe / 100)
  let mp := (5 * doy + 2) / 153
  let d := doy - (153 * mp + 2) / 5 + 1
  let m := if mp < 10 then mp + 3 else mp - 9
  (if m ≤ 2 then y + 1 else y, m, d)

/-- UTC calendar timestamp (year, month, day, hour, minute, second) of an
epoch-second value. -/
def epochSecondsToUTC (t : Nat) : Nat × Nat × Nat × Nat × Nat × Nat :=
  let days := t / 86400
  let rem := t % 86400
  let ymd := civilFromDays days
  (ymd.1, ymd.2.1, ymd.2.2, rem / 3600, rem % 3600 / 60, rem % 60)

/-! ### Data model (`gmail_client/models.py`). -/

/-- Embedding of `models.Attachment`: owning message id, attachment id,
display name. -/
structure Attachment where
  message_id : String
  attachment_id : String
  attachment_name : String
deriving DecidableEq

/-- Embedding of `models.Url`: owning message id and URL string. -/
structure Url where
  message_id : String
  url : String
deriving DecidableEq

/-- Embedding of `models.Message`.  `attachment_list` and `url_list` are
`Optional` in the source (absent `None` is distinct from present-but-empty
`[]`). -/
structure Message where
  message_id : String
  internal_date : ℤ
  label_ids : Option (List String) := none
  attachment_list : Option (List Attachment) := none
  url_list : Option (List Url) := none
  email_to : Option String := none
  email_from : Option String := none
  email_subject : Option String := none
deriving DecidableEq

/-! ### gmail._get_ordered_messages (`gmail.py` lines 83-111).  The resolved
messages are sorted with Python's stable `list.sort()`, which compares with
`Message.__lt__` on `internal_date`; the unique stable ascending sort is
embedded with `List.mergeSort`. -/

/-- The comparison induced by `Message.__lt__`/`__gt__`
(`models.py` lines 281-285): order by `internal_date`. -/
def message_le (a b : Message) : Bool :=
  decide (a.internal_date ≤ b.internal_date)

/-- Embedding of the ordering step of `_get_ordered_messages`: the list of
messages resolved from the search is stably sorted ascending by
`internal_date` (`ordered_messages.sort()`); the unique stable
comparison sort is embedded as insertion sort. -/
def ordered_messages (msgs : List Message) : List Message :=
  msgs.insertionSort (fun a b => message_le a b = true)

/-! ### A small regular-expression engine.  `Message.filter` and the
sampling pipeline receive a user pattern that Python compiles with
`re.compile` and applies with `matcher.search` (substring search).  The
fragment below covers the constructs used by the repository's patterns
(literals, `.`, alternation, star, the `$` anchor). -/

/-- Abstract syntax of the regular-expression fragment. -/
inductive Regex where
  | eps : Regex
  | char : Char → Regex
  | dot : Regex
  | dollar : Regex
  | seq : Regex → Regex → Regex
  | alt : Regex → Regex → Regex
  | star : Regex → Regex
deriving DecidableEq

/-- Structural size of a pattern, used to budget the matcher's fuel. -/
def Regex.size : Regex → Nat
  | .eps => 1
  | .char _ => 1
  | .dot => 1
  | .dollar => 1
  | .seq r1 r2 => r1.size + r2.size + 1
  | .alt r1 r2 => r1.size + r2.size + 1
  | .star r => r.size + 1

/-- Continuation-passing matcher: `matchC fuel r l k` holds when `r` matches
some prefix of `l` whose remainder satisfies `k`.  `dot` excludes newline and
`dollar` matches at end of subject or just before a final newline, as in
Python `re` without MULTILINE.  Every recursive call consumes fuel; a star
iteration must consume at least one character, which preserves the matched
language, so `(length + 1) * (size + 1)` fuel is always enough. -/
def Regex.matchC : Nat → Regex → List Char → (List Char → Bool) → Bool
  | 0, _, _, _ => false
  | _ + 1, .eps, l, k => k l
  | _ + 1, .char _, [], _ => false
  | _ + 1, .char c, x :: xs, k => x == c && k xs
  | _ + 1, .dot, [], _ => false
  | _ + 1, .dot, x :: xs, k => !(x == '\n') && k xs
  | _ + 1, .dollar, l, k => (l.isEmpty || l == ['\n']) && k l
  | fuel + 1, .seq r1 r2, l, k =>
    Regex.matchC fuel r1 l (fun l2 => Regex.matchC fuel r2 l2 k)
  | fuel + 1, .alt r1 r2, l, k => Regex.matchC fuel r1 l k || Regex.matchC fuel r2 l k
  | fuel + 1, .star r, l, k =>
    k l || Regex.matchC fuel r l
      (fun l2 => if l2.length < l.length then Regex.matchC fuel (.star r) l2 k else false)

/-- The fuel budget used for a subject of length `n`. -/
def regexFuel (r : Regex) (n : Nat) : Nat :=
  (n + 1) * (r.size + 1)

/-- Embedding of `matcher.search(s)` as a Boolean: the pattern matches a
substring starting at some position of `s`. -/
def re_search (r : Regex) (s : String) : Bool :=
  (List.range (s.data.length + 1)).any
    (fun i => Regex.matchC (regexFuel r s.data.length) r (s.data.drop i) (fun _ => true))

/-- Embedding of `matcher.match(s)` (anchored at the start), used only to
contrast full-match semantics with the substring search the source uses. -/
def re_match_at_start (r : Regex) (s : String) : Bool :=
  Regex.matchC (regexFuel r s.data.length) r s.data (fun _ => true)

/-- The pattern `\.csv$` of the specification's filter example. -/
def reDotCsvEnd : Regex :=
  .seq (.char '.') (.seq (.char 'c') (.seq (.char 's') (.seq (.char 'v') .dollar)))

/-! ### Message.filter (`models.py` lines 287-325). -/

/-- Embedding of `Message._filter_attachment_list`: guarded by the truthiness
of `self.attachment_list` (both `None` and `[]` are skipped), it replaces the
list with the subset whose display name matches the search. -/
def filter_attachment_list (r : Regex) (m : Message) : Message :=
  match m.attachment_list with
  | none => m
  | some l =>
    if l.isEmpty then m
    else { m with attachment_list := some (l.filter (fun a => re_search r a.attachment_name)) }

/-- Embedding of `Message._filter_url_list`, same shape over `url_list`. -/
def filter_url_list (r : Regex) (m : Message) : Message :=
  match m.url_list with
  | none => m
  | some l =>
    if l.isEmpty then m
    else { m with url_list := some (l.filter (fun u => re_search r u.url)) }

/-- Embedding of `Message.filter`: apply the pattern to the attachment list,
then to the URL list. -/
def Message.filterResources (m : Message) (r : Regex) : Message :=
  filter_url_list r (filter_attachment_list r m)

/-! ### The search paginator `GmailClient._raw_search_gmail`
(`gmail_client/client.py` lines 223-271).  The mailbox is modelled as the
list of pages the paged list call returns; the response for a page carries a
`nextPageToken` exactly when further pages exist. -/

/-- The guard `if max_search_results and message_count >= max_search_results`:
Python treats `None` and `0` as falsy, so a zero bound never stops. -/
def limitHit (maxResults : Option Nat) (count : Nat) : Bool :=
  match maxResults with
  | none => false
  | some n => !(n == 0) && decide (n ≤ count)

/-- The inner `for message in response["messages"]` loop: yields messages of
one page, counting them, and reports whether the `return` statement fired. -/
def emitPage (maxResults : Option Nat) : List α → Nat → List α × Nat × Bool
  | [], count => ([], count, false)
  | m :: rest, count =>
    if limitHit maxResults count then ([], count, true)
    else
      let r := emitPage maxResults rest (count + 1)
      (m :: r.1, r.2.1, r.2.2)

/-- The outer `while` loop of `_raw_search_gmail` over the remaining pages,
carrying `message_count`. -/
def searchPages (maxResults : Option Nat) : List (List α) → Nat → List α
  | [], _ => []
  | page :: more, count =>
    let r := emitPage maxResults page count
    if r.2.2 then r.1 else r.1 ++ searchPages maxResults more r.2.1

/-- Embedding of `_raw_search_gmail`: all yielded raw references for a
mailbox whose paged list call returns `pages`. -/
def raw_search_gmail (pages : List (List α)) (maxResults : Option Nat) : List α :=
  searchPages maxResults pages 0

/-! ### Url filename resolution (`models.py` lines 117-230). -/

/-- Lowercasing of a Python string (`str.lower`), ASCII range. -/
def lowerStr (s : String) : String :=
  String.mk (s.data.map Char.toLower)

/-- Python `str.strip()`: remove leading and trailing whitespace. -/
def pyStrip (l : List Char) : List Char :=
  ((l.dropWhile wsChar).reverse.dropWhile wsChar).reverse

/-- Python `needle in hay` on strings: substring containment. -/
def isSubOf : List Char → List Char → Bool
  | n, [] => n.isEmpty
  | n, h :: rest => n.isPrefixOf (h :: rest) || isSubOf n rest

/-- The `content-type` and `content-disposition` headers a `requests.head`
call returned; `contentType` is `headers.get("content-type", "")`,
`contentDisposition` is `headers.get("content-disposition", None)`. -/
structure HttpHeaders where
  contentType : String
  contentDisposition : Option String
deriving DecidableEq

/-- Embedding of `SUPPORTED_MIME_TYPES` (`models.py` lines 15-20), in dict
insertion order. -/
def SUPPORTED_MIME_TYPES : List (String × List String) :=
  [("csv", ["text/csv", "text/plain"]),
   ("xls", ["application/excel", "application/vnd.ms-excel", "application/x-excel",
            "application/x-msexcel"]),
   ("xlsx", ["application/vnd.openxmlformats-officedocument.spreadsheetml.sheet"]),
   ("zip", ["application/zip", "application/x-compressed", "application/x-zip-compressed",
            "multipart/x-zip"])]

/-- Embedding of `Url._check_url_file_type`: substring-match each accepted
MIME string against the lowercased `content-type`; the `break` only leaves
the inner loop, so a later entry of the table overwrites an earlier match. -/
def check_url_file_type (headers : HttpHeaders) : Option String :=
  let ct := (lowerStr headers.contentType).data
  SUPPORTED_MIME_TYPES.foldl
    (fun acc em => if em.2.any (fun mime => isSubOf mime.data ct) then some em.1 else acc)
    none

/-- Embedding of `re.findall("filename=(.+)", chunk)` restricted to the first
match: scan start positions left to right; at a position where `filename=`
begins, the greedy `.+` captures the rest of the chunk up to a newline and
must be non-empty, otherwise scanning continues. -/
def findFilenameCapture : List Char → Option (List Char)
  | [] => none
  | c :: rest =>
    if ("filename=".data).isPrefixOf (c :: rest) then
      let cap := ((c :: rest).drop 9).takeWhile (fun x => !(x == '\n'))
      if cap.isEmpty then findFilenameCapture rest else some cap
    else findFilenameCapture rest

/-- Python `str.split(sep)` for a one-character separator. -/
def splitChunks (sep : Char) : List Char → List (List Char)
  | [] => [[]]
  | c :: rest =>
    if c == sep then [] :: splitChunks sep rest
    else
      match splitChunks sep rest with
      | [] => [[c]]
      | chunk :: chunks => (c :: chunk) :: chunks

/-- The `for chunk in content_disposition.split(";")` loop of
`Url._get_filename_from_headers`: first chunk with a `filename=` capture
wins, stripped. -/
def filenameFromChunks : List (List Char) → Option String
  | [] => none
  | chunk :: rest =>
    match findFilenameCapture chunk with
    | some cap => some (String.mk (pyStrip cap))
    | none => filenameFromChunks rest

/-- Embedding of `Url._get_filename_from_headers` (`models.py` 151-169). -/
def get_filename_from_headers (headers : HttpHeaders) : Option String :=
  match headers.contentDisposition with
  | none => none
  | some cd => if cd = "" then none else filenameFromChunks (splitChunks ';' cd.data)

/-- Embedding of `Url._get_filename_from_url` (`models.py` 171-192):
`url.rsplit("/", 1)` has a right portion exactly when the URL contains a
slash; the portion is cut at the first `?` and stripped, and an empty result
is `None`. -/
def get_filename_from_url (url : String) : Option String :=
  let l := url.data
  if l.contains '/' then
    let afterSlash := (l.reverse.takeWhile (fun c => !(c == '/'))).reverse
    let portion := pyStrip (afterSlash.takeWhile (fun c => !(c == '?')))
    if portion.isEmpty then none else some (String.mk portion)
  else none

/-- Embedding of `Url._add_file_extension` (`models.py` 194-210): strip the
name, compare its last `len(extension)+1` characters with `.extension`,
append when they differ. -/
def add_file_extension (file_name extension : String) : String :=
  let fname := pyStrip file_name.data
  let dotExt := ("." ++ extension).data
  if dotExt.isSuffixOf fname then String.mk fname else String.mk (fname ++ dotExt)

/-- The exception `FileNameCannotBeEvaluatedException` (`models.py` 23-24),
which the specification's error taxonomy calls `FileNameUnresolvable`. -/
inductive UrlFileError where
  | fileNameCannotBeEvaluated : UrlFileError
deriving DecidableEq

/-- The final `if file_type:` step of `Url._get_file_name`: append the
extension of a recognised content type, keep the name as is otherwise. -/
def apply_extension_step (file_type : Option String) (name : String) : String :=
  match file_type with
  | some ext => add_file_extension name ext
  | none => name

/-- The `if not file_name:` fallback of `Url._get_file_name`: the filename
from the headers is preferred when truthy (non-empty), else the URL-derived
name. -/
def candidate_file_name (headers : HttpHeaders) (url : String) : Option String :=
  match get_filename_from_headers headers with
  | some s => if s = "" then get_filename_from_url url else some s
  | none => get_filename_from_url url

/-- Embedding of `Url._get_file_name` (`models.py` 212-230): resolve the
candidate name by the header/URL fallback; when both are missing the fetch
fails; a recognised content type appends its extension. -/
def get_file_name (headers : HttpHeaders) (url : String) : Except UrlFileError String :=
  match candidate_file_name headers url with
  | none => Except.error .fileNameCannotBeEvaluated
  | some name => Except.ok (apply_extension_step (check_url_file_type headers) name)

/-! ### gmail.sample_file (`gmail.py` lines 166-201).  The row iterator the
format handler produced is modelled as the list of rows it yields; the row
type is abstract. -/

/-- The `for row in iterator` loop of `sample_file`, carrying `current_row`
and the number of rows kept so far: a row at an index that is a multiple of
`sample_rate` is appended, and after every row the loop breaks once
`len(samples) >= max_records`. -/
def sampleGo (sample_rate max_records : Nat) : List α → Nat → Nat → List α
  | [], _, _ => []
  | r :: rest, current, kept =>
    if current % sample_rate == 0 then
      r :: (if max_records ≤ kept + 1 then []
            else sampleGo sample_rate max_records rest (current + 1) (kept + 1))
    else
      if max_records ≤ kept then []
      else sampleGo sample_rate max_records rest (current + 1) kept

/-- Embedding of `sample_file`: `current_row % sample_rate` raises
`ZeroDivisionError` when `sample_rate` is zero. -/
def sample_file (rows : List α) (sample_rate max_records : Nat) : Option (List α) :=
  if sample_rate = 0 then none
  else some (sampleGo sample_rate max_records rows 0 0)

/-- Modelled from the spec: the sampling contract of section 4.6 — keep
every row whose zero-based index is a multiple of `sampleRate`, capped at
`maxRecords` kept rows. -/
def sample_file_spec (rows : List α) (sample_rate max_records : Nat) : List α :=
  ((rows.enum.filter (fun p => p.1 % sample_rate == 0)).map (fun p => p.2)).take max_records

/-- Modelled from the spec: the kept rows of section 4.6 written as a scan —
a row is kept when its index `cur` is a multiple of the rate. -/
def specFrom (sample_rate : Nat) : List α → Nat → List α
  | [], _ => []
  | r :: rest, cur =>
    if cur % sample_rate == 0 then r :: specFrom sample_rate rest (cur + 1)
    else specFrom sample_rate rest (cur + 1)

/-! ### gmail.sample_files (`gmail.py` lines 204-243).  Retrieval plus row
iteration for one attachment (`attachment.get_file(client)` followed by the
format handler) is modelled as an environment `rowsOf` mapping an attachment
to the rows of its file. -/

/-- The inner `for attachment in msg.attachment_list` loop of `sample_files`:
pattern-matching attachments are sampled, `files_so_far` is carried, and the
loop breaks once it reaches `max_files`.  `none` models an exception escaping
(`ZeroDivisionError` from `sample_file`). -/
def sampleFilesInner (r : Regex) (rowsOf : Attachment → List α)
    (sample_rate max_records max_files : Nat) :
    List Attachment → Nat → Option (List α × Nat)
  | [], count => some ([], count)
  | a :: rest, count =>
    if re_search r a.attachment_name then
      match sample_file (rowsOf a) sample_rate max_records with
      | none => none
      | some rs =>
        if max_files ≤ count + 1 then some (rs, count + 1)
        else
          match sampleFilesInner r rowsOf sample_rate max_records max_files rest (count + 1) with
          | none => none
          | some rc => some (rs ++ rc.1, rc.2)
    else sampleFilesInner r rowsOf sample_rate max_records max_files rest count

/-- The outer `for msg in gmail_emails_list` loop of `sample_files`:
iterating a message whose `attachment_list` is `None` raises `TypeError`
(`none`); after each message the loop breaks once `files_so_far` reached
`max_files`. -/
def sampleFilesOuter (r : Regex) (rowsOf : Attachment → List α)
    (sample_rate max_records max_files : Nat) :
    List Message → Nat → Option (List α)
  | [], _ => some []
  | m :: rest, count =>
    match m.attachment_list with
    | none => none
    | some atts =>
      match sampleFilesInner r rowsOf sample_rate max_records max_files atts count with
      | none => none
      | some rc =>
        if max_files ≤ rc.2 then some rc.1
        else
          match sampleFilesOuter r rowsOf sample_rate max_records max_files rest rc.2 with
          | none => none
          | some rs => some (rc.1 ++ rs)

/-- Embedding of `sample_files`: the compiled name pattern is `r`, the
messages are scanned in the given order with a single global `files_so_far`
counter starting at zero. -/
def sample_files (r : Regex) (rowsOf : Attachment → List α)
    (msgs : List Message) (sample_rate max_records max_files : Nat) : Option (List α) :=
  sampleFilesOuter r rowsOf sample_rate max_records max_files msgs 0

/-- The source-kind selector of the specification's Schema Sampler
(`sourceType`): attachment resources or URL resources. -/
inductive SourceType where
  | attachment : SourceType
  | url : SourceType
deriving DecidableEq

/-- Modelled from the spec: `sample_files` per section 4.6 — iterate the
messages in order, select the attachment list or the URL list according to
`sourceType`, sample each pattern-matching resource, and stop the whole scan
after `maxFiles` resources. -/
def sample_files_spec (r : Regex) (rowsOfA : Attachment → List α) (rowsOfU : Url → List α)
    (msgs : List Message) (sourceType : SourceType)
    (sample_rate max_records max_files : Nat) : List α :=
  match sourceType with
  | .attachment =>
    ((msgs.flatMap
        (fun m => (m.attachment_list.getD []).filter (fun a => re_search r a.attachment_name))).take
      max_files).flatMap (fun a => sample_file_spec (rowsOfA a) sample_rate max_records)
  | .url =>
    ((msgs.flatMap
        (fun m => (m.url_list.getD []).filter (fun u => re_search r u.url))).take
      max_files).flatMap (fun u => sample_file_spec (rowsOfU u) sample_rate max_records)

/-! ### The Message Resolver (`gmail_client/client.py` lines 103-175).  A raw
mailbox search result is modelled with the fields the resolver reads. -/

/-- One entry of the raw message's top-level `payload.parts` list:
`filename`, `body.attachmentId`, `mimeType` and the transport-encoded body
`body.data`. -/
structure RawPart where
  filename : String
  attachmentId : Option String
  mimeType : String
  bodyData : Option String
deriving DecidableEq

/-- A raw `users.messages` resource with the fields the resolver reads. -/
structure RawMessage where
  id : String
  internalDate : ℤ
  labelIds : Option (List String)
  parts : List RawPart
  headers : List (String × String)
deriving DecidableEq

/-- Embedding of `GmailClient._convert_to_attachment` (client.py 103-121):
a part with a truthy filename and a truthy `body.attachmentId` becomes an
`Attachment`. -/
def convert_to_attachment (message_id : String) (part : RawPart) : Option Attachment :=
  match part.attachmentId with
  | some attId =>
    if part.filename = "" || attId = "" then none
    else some ⟨message_id, attId, part.filename⟩
  | none => none

/-- Embedding of `GmailClient._convert_to_attachment_list` (client.py
123-139): scan the top-level parts in document order. -/
def convert_to_attachment_list (m : RawMessage) : List Attachment :=
  m.parts.filterMap (convert_to_attachment m.id)

/-- Embedding of `GmailClient._find_in_header` (client.py 141-160):
case-insensitive lookup returning the first matching header value. -/
def find_in_header (m : RawMessage) (key : String) : Option String :=
  (m.headers.find? (fun h => lowerStr h.1 == lowerStr key)).map (fun h => h.2)

/-- The single-quote character, written by code point. -/
def squote : Char := Char.ofNat 39

/-- Scan for an `href=` occurrence inside an anchor tag: the preceding
character must be whitespace (the regex requires `\s+` right before `href=`)
and a `>` aborts the tag.  Returns the characters after `href=`. -/
def findHrefAssign : List Char → Bool → Option (List Char)
  | [], _ => none
  | c :: rest, prevWs =>
    if prevWs && ("href=".data.isPrefixOf (c :: rest)) then some ((c :: rest).drop 5)
    else if c == '>' then none
    else findHrefAssign rest (wsChar c)

/-- Lazy body of the quoted URL: the characters up to the first closing
quote `q`; a newline before the quote aborts (the regex `.` excludes it). -/
def takeUrlBody (q : Char) : List Char → Option (List Char × List Char)
  | [] => none
  | c :: rest =>
    if c == q then some ([], rest)
    else if c == '\n' then none
    else
      match takeUrlBody q rest with
      | none => none
      | some ua => some (c :: ua.1, ua.2)

/-- Modelled from the spec: one match of the anchor pattern `A_HREF_REGEX`
(`gmail.py` line 16) anchored at the head of `l` — literal `<a`, mandatory
whitespace, optional attributes free of `>` ending in whitespace, `href=`,
either quote character, a target starting with `http` up to the matching
quote.  Returns the captured target and the rest of the input. -/
def matchAHrefAt (l : List Char) : Option (String × List Char) :=
  match l with
  | '<' :: 'a' :: l2 =>
    match l2 with
    | [] => none
    | c :: _ =>
      if wsChar c then
        match findHrefAssign l2 false with
        | none => none
        | some l3 =>
          match l3 with
          | [] => none
          | q :: l4 =>
            if q == '"' || q == squote then
              if ("http".data).isPrefixOf l4 then
                match takeUrlBody q (l4.drop 4) with
                | none => none
                | some ua => some (String.mk ('h' :: 't' :: 't' :: 'p' :: ua.1), ua.2)
              else none
            else none
      else none
  | _ => none

/-- Left-to-right scan of `re.findall`: try the anchor pattern at each
position, emit the capture and resume after the match.  Every step consumes
at least one character, so fuel equal to the input length suffices. -/
def extractHrefGo : Nat → List Char → List String
  | 0, _ => []
  | _ + 1, [] => []
  | fuel + 1, c :: rest =>
    match matchAHrefAt (c :: rest) with
    | some ua => ua.1 :: extractHrefGo fuel ua.2
    | none => extractHrefGo fuel rest

/-- Modelled from the spec: `GmailClient._extract_href_from_html`, whose
implementation is not under `src/` (only its unit tests are) — every
hyperlink target of the HTML matched by `A_HREF_REGEX`, in document order,
duplicates kept. -/
def extract_href_from_html (html : String) : List String :=
  extractHrefGo (html.data.length + 1) html.data

/-- Modelled from the spec: `GmailClient._convert_to_url_list`, whose
implementation is not under `src/` (the source's `_convert_to_message_obj`
leaves the URL list as a `@TODO`) — locate the top-level HTML body part,
decode its transport encoding (`decode` abstracts the URL-safe base64
decode), extract every hyperlink and wrap each in a `Url` owned by the
message. -/
def convert_to_url_list (decode : String → String) (m : RawMessage) : List Url :=
  match m.parts.find? (fun p => p.mimeType == "text/html") with
  | none => []
  | some p =>
    match p.bodyData with
    | none => []
    | some data => (extract_href_from_html (decode data)).map (fun u => ⟨m.id, u⟩)

/-- The Message Resolver: `GmailClient._convert_to_message_obj` (client.py
162-175) with the URL list built per the specification (the source leaves it
empty with a `@TODO`; its unit tests exercise the URL building). -/
def convert_to_message_obj (decode : String → String) (m : RawMessage) : Message :=
  { message_id := m.id
    internal_date := m.internalDate
    label_ids := m.labelIds
    attachment_list := some (convert_to_attachment_list m)
    url_list := some (convert_to_url_list decode m)
    email_to := find_in_header m "To"
    email_from := find_in_header m "From"
    email_subject := find_in_header m "Subject" }

/-! ## Helper lemmas -/

theorem charToNatOfNatValid (n : Nat) (h : n.isValidChar) : (Char.ofNat n).toNat = n := by
  unfold Char.ofNat
  rw [dif_pos h]
  unfold Char.ofNatAux Char.toNat
  have hlt : n < 2 ^ 32 := by
    rcases h with h | h
    · omega
    · omega
  simp [UInt32.toNat, Nat.mod_eq_of_lt hlt]

theorem uintLeIffToNat (a b : UInt32) : (a ≤ b) ↔ a.toNat ≤ b.toNat := by
  simp [UInt32.le_def, BitVec.le_def, UInt32.toNat]

theorem wordCharToLower (c : Char) (h : wordChar c = true) : wordChar c.toLower = true := by
  unfold wordChar at *
  unfold Char.toLower
  by_cases hr : c.toNat ≥ 65 ∧ c.toNat ≤ 90
  · simp only [if_pos hr]
    have hv : (c.toNat + 32).isValidChar := by
      left
      omega
    have hvt : (Char.ofNat (c.toNat + 32)).val.toNat = c.toNat + 32 :=
      charToNatOfNatValid _ hv
    have hl : (Char.ofNat (c.toNat + 32)).isLower = true := by
      simp only [Char.isLower, ge_iff_le, Bool.and_eq_true, decide_eq_true_eq, uintLeIffToNat]
      constructor
      · show (97 : UInt32).toNat ≤ _
        rw [hvt]
        norm_num
        omega
      · show _ ≤ (122 : UInt32).toNat
        rw [hvt]
        norm_num
        omega
    simp [Char.isAlphanum, Char.isAlpha, hl]
  · simp only [if_neg hr]
    exact h

theorem collapseWsGo_mem (l : List Char) :
    ∀ (b : Bool) (c : Char), c ∈ collapseWsGo l b → c = '_' ∨ (c ∈ l ∧ wsChar c = false) := by
  induction l with
  | nil =>
    intro b c hc
    simp [collapseWsGo] at hc
  | cons c0 rest ih =>
    intro b c hc
    unfold collapseWsGo at hc
    by_cases hws : wsChar c0
    · rw [if_pos hws] at hc
      cases b with
      | true =>
        simp only [if_pos rfl] at hc
        rcases ih true c hc with h | ⟨hm, hns⟩
        · exact Or.inl h
        · exact Or.inr ⟨List.mem_cons_of_mem _ hm, hns⟩
      | false =>
        simp only [Bool.false_eq_true, if_neg] at hc
        rcases List.mem_cons.mp hc with h | h
        · exact Or.inl h
        · rcases ih true c h with h2 | ⟨hm, hns⟩
          · exact Or.inl h2
          · exact Or.inr ⟨List.mem_cons_of_mem _ hm, hns⟩
    · rw [if_neg hws] at hc
      rcases List.mem_cons.mp hc with h | h
      · subst h
        exact Or.inr ⟨List.mem_cons_self _ _, Bool.not_eq_true _ ▸ (by simpa using hws)⟩
      · rcases ih false c h with h2 | ⟨hm, hns⟩
        · exact Or.inl h2
        · exact Or.inr ⟨List.mem_cons_of_mem _ hm, hns⟩

theorem formatted_key_all_word (s : String) :
    (formatted_key s).data.all wordChar = true := by
  unfold formatted_key
  rw [List.all_eq_true]
  intro c hc
  rcases List.mem_map.mp hc with ⟨c0, hc0, hlow⟩
  rcases collapseWsGo_mem _ _ _ hc0 with h | ⟨hm, hns⟩
  · subst h
    subst hlow
    decide
  · unfold stripNonWordNonWs at hm
    have hw : (wordChar c0 || wsChar c0) = true := (List.mem_filter.mp hm).2
    rw [hns, Bool.or_false] at hw
    subst hlow
    exact wordCharToLower c0 hw

/-! ## Claim theorems -/

/-- C1 (code bug): the watermark conversion is claimed to truncate epoch
milliseconds to epoch seconds by integer floor-division by 1000, the example
1583013578000 giving 2020-02-29T21:59:38 UTC.  The example holds under
floor-division, but the source's `gmail_timestamp_to_epoch_seconds` computes
`int(epoch_time_ms) / 1000` with Python 3 TRUE division — contradicting its
own `-> int` annotation and docstring — so at internal date 1583013578500
the value is 1583013578.5: the fractional half second survives into the
watermark and no truncation happens. -/
theorem watermark_truncation_code_bug :
    gmail_timestamp_to_epoch_seconds 1583013578000 = ((1583013578 : ℤ) : ℚ)
    ∧ epoch_ms_to_seconds_floor 1583013578000 = 1583013578
    ∧ epochSecondsToUTC 1583013578 = (2020, 2, 29, 21, 59, 38)
    ∧ epoch_ms_to_seconds_floor 1583013578500 = 1583013578
    ∧ gmail_timestamp_to_epoch_seconds 1583013578500
        - ((epoch_ms_to_seconds_floor 1583013578500 : ℤ) : ℚ) = 1 / 2 := by
  refine ⟨by norm_num [gmail_timestamp_to_epoch_seconds], by decide, by decide, by decide, ?_⟩
  have h : epoch_ms_to_seconds_floor 1583013578500 = 1583013578 := by decide
  rw [h]
  norm_num [gmail_timestamp_to_epoch_seconds]

/-- C9 (confirmed): a spreadsheet header cell is normalized by stripping
every character that is neither a word character nor whitespace, collapsing
each whitespace run to one underscore, then lowercasing; "Order #" maps to
"order_", "First Name" maps to "first_name", every character of the emitted
field name is a word character, and the normalized name is the key under
which the cell value is emitted. -/
theorem header_normalization_spec :
    formatted_key "Order #" = "order_"
    ∧ formatted_key "First Name" = "first_name"
    ∧ (∀ s : String, (formatted_key s).data.all wordChar = true)
    ∧ processRowCore ["First Name"] [] ["Ada"] = [("first_name", "Ada")] := by
  refine ⟨by decide, by decide, formatted_key_all_word, by decide⟩

/-- C3 (confirmed): `_get_ordered_messages` returns the resolved messages in
a stable ascending sort by internal timestamp: the output is pairwise
ordered by `internal_date`, is a permutation of the input, messages with
equal timestamps keep their relative order regardless of the input order,
and internal dates [300, 100, 200] come out as [100, 200, 300]. -/
theorem get_ordered_messages_stable_ascending :
    (∀ msgs : List Message,
      (ordered_messages msgs).Pairwise (fun a b => message_le a b = true)
      ∧ (ordered_messages msgs).Perm msgs
      ∧ ∀ d : ℤ, (ordered_messages msgs).filter (fun m => m.internal_date == d)
          = msgs.filter (fun m => m.internal_date == d))
    ∧ ordered_messages
        [{ message_id := "m3", internal_date := 300 },
         { message_id := "m1", internal_date := 100 },
         { message_id := "m2", internal_date := 200 }]
      = [{ message_id := "m1", internal_date := 100 },
         { message_id := "m2", internal_date := 200 },
         { message_id := "m3", internal_date := 300 }] := by
  constructor
  · intro msgs
    haveI htot : IsTotal Message (fun a b => message_le a b = true) := by
      constructor
      intro a b
      unfold message_le
      rcases le_total a.internal_date b.internal_date with h | h
      · exact Or.inl (by simpa using h)
      · exact Or.inr (by simpa using h)
    haveI htr : IsTrans Message (fun a b => message_le a b = true) := by
      constructor
      intro a b c hab hbc
      unfold message_le at *
      simp only [decide_eq_true_eq] at *
      omega
    refine ⟨List.sorted_insertionSort _ msgs, List.perm_insertionSort _ msgs, ?_⟩
    intro d
    set p : Message → Bool := fun m => m.internal_date == d with hp
    have hpair : (msgs.filter p).Pairwise (fun a b => message_le a b = true) := by
      apply List.pairwise_of_forall_mem_list
      intro a ha b hb
      have ha2 : p a = true := (List.mem_filter.mp ha).2
      have hb2 : p b = true := (List.mem_filter.mp hb).2
      simp only [hp, beq_iff_eq] at ha2 hb2
      unfold message_le
      simp [ha2, hb2]
    have hsub : (msgs.filter p).Sublist (ordered_messages msgs) :=
      List.sublist_insertionSort hpair (List.filter_sublist msgs)
    have hsub2 : (msgs.filter p).Sublist ((ordered_messages msgs).filter p) := by
      have := List.Sublist.filter p hsub
      simpa [List.filter_filter] using this
    have hlen : (msgs.filter p).length = ((ordered_messages msgs).filter p).length :=
      (((List.perm_insertionSort _ msgs).filter p).length_eq).symm
    exact (hsub2.eq_of_length hlen).symm
  · decide


theorem filter_attachment_list_url_eq (r : Regex) (m : Message) :
    (filter_attachment_list r m).url_list = m.url_list := by
  cases hal : m.attachment_list with
  | none => simp [filter_attachment_list, hal]
  | some l => by_cases hl : l.isEmpty <;> simp [filter_attachment_list, hal, hl]

theorem filter_url_list_att_eq (r : Regex) (m : Message) :
    (filter_url_list r m).attachment_list = m.attachment_list := by
  cases hul : m.url_list with
  | none => simp [filter_url_list, hul]
  | some l => by_cases hl : l.isEmpty <;> simp [filter_url_list, hul, hl]

theorem filter_attachment_list_att_eq (r : Regex) (m : Message) :
    (filter_attachment_list r m).attachment_list
      = m.attachment_list.map (fun l => l.filter (fun a => re_search r a.attachment_name)) := by
  cases hal : m.attachment_list with
  | none => simp [filter_attachment_list, hal]
  | some l =>
    by_cases hl : l.isEmpty
    · have hnil : l = [] := List.isEmpty_iff.mp hl
      subst hnil
      simp [filter_attachment_list, hal]
    · simp [filter_attachment_list, hal, hl]

theorem filter_url_list_url_eq (r : Regex) (m : Message) :
    (filter_url_list r m).url_list
      = m.url_list.map (fun l => l.filter (fun u => re_search r u.url)) := by
  cases hul : m.url_list with
  | none => simp [filter_url_list, hul]
  | some l =>
    by_cases hl : l.isEmpty
    · have hnil : l = [] := List.isEmpty_iff.mp hl
      subst hnil
      simp [filter_url_list, hul]
    · simp [filter_url_list, hul, hl]

/-- C5 (confirmed): `Message.filter` applies the pattern with
substring-search (not full-match) semantics independently to attachment
display names and URL strings, replaces each present list with its matching
subset preserving original order, leaves an absent list absent and turns a
present list with zero matches into an empty present list; with pattern
`\.csv$`, attachments [x.csv, y.txt] filter to [x.csv] while an absent
url_list stays absent, and the pattern matches "x.csv" by substring search
although an anchored match fails. -/
theorem message_filter_substring_spec :
    (∀ (r : Regex) (m : Message),
      (m.filterResources r).attachment_list
          = m.attachment_list.map (fun l => l.filter (fun a => re_search r a.attachment_name))
      ∧ (m.filterResources r).url_list
          = m.url_list.map (fun l => l.filter (fun u => re_search r u.url)))
    ∧ (({ message_id := "1", internal_date := 1000,
          attachment_list := some [⟨"1", "2", "x.csv"⟩, ⟨"1", "2", "y.txt"⟩],
          url_list := none } : Message).filterResources reDotCsvEnd).attachment_list
        = some [⟨"1", "2", "x.csv"⟩]
    ∧ (({ message_id := "1", internal_date := 1000,
          attachment_list := some [⟨"1", "2", "x.csv"⟩, ⟨"1", "2", "y.txt"⟩],
          url_list := none } : Message).filterResources reDotCsvEnd).url_list = none
    ∧ re_search reDotCsvEnd "x.csv" = true
    ∧ re_match_at_start reDotCsvEnd "x.csv" = false := by
  refine ⟨?_, by decide, by decide, by decide, by decide⟩
  intro r m
  constructor
  · rw [Message.filterResources, filter_url_list_att_eq, filter_attachment_list_att_eq]
  · rw [Message.filterResources, filter_url_list_url_eq, filter_attachment_list_url_eq]


theorem emitPage_none_spec {α : Type} :
    ∀ (page : List α) (count : Nat),
      emitPage none page count = (page, count + page.length, false) := by
  intro page
  induction page with
  | nil => intro count; simp [emitPage]
  | cons m rest ih =>
    intro count
    have hlim : limitHit (none : Option Nat) count = false := rfl
    simp only [emitPage, hlim, Bool.false_eq_true, if_false, ih (count + 1)]
    refine Prod.ext rfl (Prod.ext ?_ rfl)
    show count + 1 + rest.length = count + (m :: rest).length
    simp only [List.length_cons]
    omega

theorem searchPages_none_spec {α : Type} :
    ∀ (pages : List (List α)) (count : Nat),
      searchPages none pages count = pages.flatten := by
  intro pages
  induction pages with
  | nil => intro count; simp [searchPages]
  | cons page more ih =>
    intro count
    simp [searchPages, emitPage_none_spec, ih]

theorem emitPage_limit_spec {α : Type} (n : Nat) (hn : 1 ≤ n) :
    ∀ (page : List α) (count : Nat), count ≤ n →
      emitPage (some n) page count
        = (page.take (n - count), count + min (n - count) page.length,
           decide (n - count < page.length)) := by
  intro page
  induction page with
  | nil =>
    intro count hc
    simp [emitPage]
  | cons m rest ih =>
    intro count hc
    by_cases hstop : n ≤ count
    · have hlim : limitHit (some n) count = true := by
        simp [limitHit]
        omega
      have h0 : n - count = 0 := by omega
      simp [emitPage, hlim, h0]
    · have hlim : limitHit (some n) count = false := by
        simp [limitHit]
        omega
      have hnc : n - count = (n - (count + 1)) + 1 := by omega
      simp only [emitPage, hlim, Bool.false_eq_true, if_false]
      rw [ih (count + 1) (by omega)]
      refine Prod.ext ?_ (Prod.ext ?_ ?_)
      · simp [hnc]
      · simp only []
        show count + 1 + min (n - (count + 1)) rest.length
            = count + min (n - count) (m :: rest).length
        simp only [List.length_cons]
        omega
      · show decide (n - (count + 1) < rest.length)
            = decide (n - count < (m :: rest).length)
        simp only [List.length_cons]
        exact decide_eq_decide.mpr (by omega)

theorem searchPages_take_spec {α : Type} (n : Nat) (hn : 1 ≤ n) :
    ∀ (pages : List (List α)) (count : Nat), count ≤ n →
      searchPages (some n) pages count = pages.flatten.take (n - count) := by
  intro pages
  induction pages with
  | nil =>
    intro count hc
    simp [searchPages]
  | cons page more ih =>
    intro count hc
    simp only [searchPages, emitPage_limit_spec n hn page count hc]
    by_cases hs : n - count < page.length
    · simp only [decide_eq_true hs, if_true]
      rw [List.flatten_cons, List.take_append_eq_append_take]
      have h0 : n - count - page.length = 0 := by omega
      simp [h0, le_of_lt hs]
    · simp only [decide_eq_false hs, Bool.false_eq_true, if_false]
      have hle : page.length ≤ n - count := by omega
      have hcount2 : count + min (n - count) page.length = count + page.length := by
        rw [min_eq_right hle]
      rw [hcount2, ih (count + page.length) (by omega)]
      rw [List.flatten_cons, List.take_append_eq_append_take, List.take_of_length_le hle,
        Nat.sub_sub]

/-- C4 counterexample: a paginated search with `maxResults = 0` over a
one-message mailbox yields that message — the guard treats a zero bound as
falsy, so nothing stops the yield — and the yielded count 1 differs from
min(0, true_total) = 0, refuting the claim as stated at N = 0. -/
theorem paginator_zero_bound_counterexample :
    raw_search_gmail [["m1"]] (some 0) = ["m1"]
    ∧ (raw_search_gmail [["m1"]] (some 0)).length
        ≠ min 0 ([["m1"]] : List (List String)).flatten.length := by
  refine ⟨by decide, by decide⟩

/-- C4 (corrected): for every paginated search with `maxResults = N ≥ 1`
the paginator yields exactly the first N references — hence min(N,
true_total) references, stopping exactly at N even in the middle of a page —
and with no `maxResults` bound it yields all true_total references.  (The
code treats a bound of 0 like no bound, see the counterexample.) -/
theorem paginator_min_bound {α : Type} (pages : List (List α)) (n : Nat) (hn : 1 ≤ n) :
    raw_search_gmail pages (some n) = pages.flatten.take n
    ∧ (raw_search_gmail pages (some n)).length = min n pages.flatten.length
    ∧ raw_search_gmail pages none = pages.flatten := by
  have h1 : raw_search_gmail pages (some n) = pages.flatten.take n := by
    unfold raw_search_gmail
    rw [searchPages_take_spec n hn pages 0 (by omega), Nat.sub_zero]
  refine ⟨h1, ?_, ?_⟩
  · rw [h1, List.length_take]
  · unfold raw_search_gmail
    exact searchPages_none_spec pages 0

/-- Witness for C4: the two-page mailbox of the unit tests with
`maxResults = 7` yields exactly the first 7 references, 7 = min(7, 10). -/
theorem paginator_min_bound_witness :
    raw_search_gmail [[101,102,103,104,105],[106,107,108,109,110]] (some 7)
        = [101,102,103,104,105,106,107]
    ∧ (raw_search_gmail [[101,102,103,104,105],[106,107,108,109,110]] (some 7)).length
        = min 7 ([[101,102,103,104,105],[106,107,108,109,110]] : List (List Nat)).flatten.length := by
  have h := paginator_min_bound [[101,102,103,104,105],[106,107,108,109,110]] 7 (by decide)
  refine ⟨?_, h.2.1⟩
  rw [h.1]
  decide


theorem specFrom_enumFrom {α : Type} (rate : Nat) :
    ∀ (rows : List α) (cur : Nat),
      specFrom rate rows cur
        = ((List.enumFrom cur rows).filter (fun p => p.1 % rate == 0)).map Prod.snd := by
  intro rows
  induction rows with
  | nil => intro cur; simp [specFrom]
  | cons r rest ih =>
    intro cur
    rw [List.enumFrom_cons]
    by_cases hmod : (cur % rate == 0) = true
    · simp only [specFrom, hmod, if_true, List.filter_cons, List.map_cons]
      rw [ih (cur + 1)]
    · simp only [specFrom, hmod, Bool.false_eq_true, if_false, List.filter_cons]
      rw [ih (cur + 1)]

theorem sample_file_spec_eq {α : Type} (rows : List α) (rate max : Nat) :
    sample_file_spec rows rate max = (specFrom rate rows 0).take max := by
  unfold sample_file_spec
  rw [specFrom_enumFrom]
  rfl

theorem sampleGo_take {α : Type} (rate max : Nat) :
    ∀ (rows : List α) (cur kept : Nat), kept < max →
      sampleGo rate max rows cur kept = (specFrom rate rows cur).take (max - kept) := by
  intro rows
  induction rows with
  | nil =>
    intro cur kept hk
    simp [sampleGo, specFrom]
  | cons r rest ih =>
    intro cur kept hk
    by_cases hmod : (cur % rate == 0) = true
    · simp only [sampleGo, specFrom, hmod, if_true]
      by_cases hfull : max ≤ kept + 1
      · have h1 : max - kept = 1 := by omega
        rw [if_pos hfull, h1]
        simp
      · rw [if_neg hfull, ih (cur + 1) (kept + 1) (by omega)]
        have h1 : max - kept = (max - (kept + 1)) + 1 := by omega
        rw [h1, List.take_succ_cons]
    · simp only [sampleGo, specFrom, hmod, Bool.false_eq_true, if_false]
      rw [if_neg (by omega), ih (cur + 1) kept hk]

/-- C8 counterexample: with `maxRecords = 0` over a one-row source the
code still returns the first kept row (the cap is checked only after a row
is appended), while the claim — keep index-multiples of the rate, capped at
`maxRecords` kept rows — predicts the empty list. -/
theorem sample_file_zero_maxrecords_counterexample :
    sample_file ["row0"] 2 0 = some ["row0"]
    ∧ sample_file_spec ["row0"] 2 0 = []
    ∧ sample_file ["row0"] 2 0 ≠ some (sample_file_spec ["row0"] 2 0) := by
  refine ⟨by decide, by decide, by decide⟩

/-- C8 (corrected): for every row source, `sampleRate ≥ 1` and
`maxRecords ≥ 1`, `sample_file` keeps exactly the rows whose zero-based
index is a multiple of `sampleRate`, stopping once `maxRecords` kept rows
have accumulated or the source is exhausted.  (With `sampleRate = 0` the
code raises `ZeroDivisionError`, and with `maxRecords = 0` it still keeps
the first row, see the counterexample.) -/
theorem sample_file_row_selection {α : Type} (rows : List α) (sample_rate max_records : Nat)
    (h1 : 1 ≤ sample_rate) (h2 : 1 ≤ max_records) :
    sample_file rows sample_rate max_records
      = some (sample_file_spec rows sample_rate max_records) := by
  unfold sample_file
  rw [if_neg (by omega), sampleGo_take sample_rate max_records rows 0 0 (by omega),
    sample_file_spec_eq, Nat.sub_zero]

/-- Witness for C8: over a 10-row source with rate 2 and cap 3 exactly the
rows at indices 0, 2 and 4 are returned. -/
theorem sample_file_row_selection_witness :
    sample_file ["r0", "r1", "r2", "r3", "r4", "r5", "r6", "r7", "r8", "r9"] 2 3
      = some ["r0", "r2", "r4"]
    ∧ sample_file_spec ["r0", "r1", "r2", "r3", "r4", "r5", "r6", "r7", "r8", "r9"] 2 3
      = ["r0", "r2", "r4"] := by
  have h := sample_file_row_selection
    ["r0", "r1", "r2", "r3", "r4", "r5", "r6", "r7", "r8", "r9"] 2 3 (by decide) (by decide)
  refine ⟨?_, by decide⟩
  rw [h]
  decide


theorem sampleFilesInner_take {α : Type} (r : Regex) (rowsOf : Attachment → List α)
    (rate maxRec maxFiles : Nat) (hr : 1 ≤ rate) :
    ∀ (atts : List Attachment) (count : Nat), count < maxFiles →
      sampleFilesInner r rowsOf rate maxRec maxFiles atts count
        = some
          ((((atts.filter (fun a => re_search r a.attachment_name)).take
                (maxFiles - count)).flatMap
              (fun a => sampleGo rate maxRec (rowsOf a) 0 0)),
            count + min (maxFiles - count)
              (atts.filter (fun a => re_search r a.attachment_name)).length) := by
  have hsf : ∀ rows : List α, sample_file rows rate maxRec
      = some (sampleGo rate maxRec rows 0 0) := by
    intro rows
    rw [sample_file, if_neg (by omega)]
  intro atts
  induction atts with
  | nil =>
    intro count hc
    simp [sampleFilesInner]
  | cons a rest ih =>
    intro count hc
    by_cases hm : re_search r a.attachment_name = true
    · simp only [sampleFilesInner, hm, if_true, hsf]
      by_cases hful : maxFiles ≤ count + 1
      · rw [if_pos hful]
        have h1 : maxFiles - count = 1 := by omega
        simp only [List.filter_cons, hm, if_true, h1, List.take_succ_cons, List.take_zero,
          List.flatMap_cons, List.flatMap_nil, List.append_nil, List.length_cons]
        have h2 : min 1 (rest.filter (fun a => re_search r a.attachment_name)).length.succ
            = 1 := by omega
        rw [Nat.succ_eq_add_one] at h2
        rw [h2]
      · rw [if_neg hful, ih (count + 1) (by omega)]
        have h1 : maxFiles - count = (maxFiles - (count + 1)) + 1 := by omega
        simp only [List.filter_cons, hm, if_true, h1, List.take_succ_cons, List.flatMap_cons,
          List.length_cons, Option.map_some, Nat.succ_min_succ]
        refine congrArg some (Prod.ext rfl ?_)
        show count + 1 + min (maxFiles - (count + 1))
            (rest.filter (fun a => re_search r a.attachment_name)).length
          = count + (min (maxFiles - (count + 1))
            (rest.filter (fun a => re_search r a.attachment_name)).length + 1)
        omega
    · have hm2 : re_search r a.attachment_name = false := by
        simpa using hm
      simp only [sampleFilesInner, hm2, Bool.false_eq_true, if_false]
      rw [ih count hc]
      simp only [List.filter_cons, hm2, Bool.false_eq_true, if_false]

theorem sampleFilesOuter_take {α : Type} (r : Regex) (rowsOf : Attachment → List α)
    (rate maxRec maxFiles : Nat) (hr : 1 ≤ rate) :
    ∀ (msgs : List Message) (count : Nat), count < maxFiles →
      (∀ m ∈ msgs, m.attachment_list ≠ none) →
      sampleFilesOuter r rowsOf rate maxRec maxFiles msgs count
        = some (((msgs.flatMap (fun m => (m.attachment_list.getD []).filter
              (fun a => re_search r a.attachment_name))).take (maxFiles - count)).flatMap
            (fun a => sampleGo rate maxRec (rowsOf a) 0 0)) := by
  intro msgs
  induction msgs with
  | nil =>
    intro count hc hall
    simp [sampleFilesOuter]
  | cons m rest ih =>
    intro count hc hall
    obtain ⟨atts, hatts⟩ : ∃ atts, m.attachment_list = some atts := by
      cases hm : m.attachment_list with
      | none => exact absurd hm (hall m (List.mem_cons_self _ _))
      | some l => exact ⟨l, rfl⟩
    simp only [sampleFilesOuter, hatts]
    rw [sampleFilesInner_take r rowsOf rate maxRec maxFiles hr atts count hc]
    dsimp only
    have hk : count + (maxFiles - count) = maxFiles := by omega
    by_cases hstop : maxFiles ≤ count
        + min (maxFiles - count) (atts.filter (fun a => re_search r a.attachment_name)).length
    · rw [if_pos hstop]
      have h1 : maxFiles - count
          ≤ min (maxFiles - count)
              (atts.filter (fun a => re_search r a.attachment_name)).length := by omega
      have hlen : maxFiles - count
          ≤ (atts.filter (fun a => re_search r a.attachment_name)).length :=
        le_trans h1 (min_le_right _ _)
      simp only [List.flatMap_cons, hatts, Option.getD_some]
      rw [List.take_append_eq_append_take]
      have h0 : maxFiles - count
          - (atts.filter (fun a => re_search r a.attachment_name)).length = 0 := by omega
      rw [h0]
      simp
    · rw [if_neg hstop]
      have hminL : min (maxFiles - count)
          (atts.filter (fun a => re_search r a.attachment_name)).length
          = (atts.filter (fun a => re_search r a.attachment_name)).length := by
        rcases le_total (maxFiles - count)
            (atts.filter (fun a => re_search r a.attachment_name)).length with h | h
        · rw [min_eq_left h] at hstop
          omega
        · rw [min_eq_right h]
      rw [hminL]
      have hLk : (atts.filter (fun a => re_search r a.attachment_name)).length
          ≤ maxFiles - count := by
        rcases le_total (maxFiles - count)
            (atts.filter (fun a => re_search r a.attachment_name)).length with h | h
        · rw [min_eq_left h] at hminL
          omega
        · exact h
      rw [ih (count + (atts.filter (fun a => re_search r a.attachment_name)).length)
        (by omega) (fun m2 hm2 => hall m2 (List.mem_cons_of_mem _ hm2))]
      simp only [List.flatMap_cons, hatts, Option.getD_some]
      rw [List.take_append_eq_append_take, List.take_of_length_le hLk, Nat.sub_sub,
        List.flatMap_append]

/-- C7 counterexample: `sample_files` never consults a source type — it has
no such parameter and always iterates the attachment list.  For a message
with an empty attachment list and one pattern-matching URL, the claim (read
with sourceType = url per the specification's Schema Sampler) predicts the
URL's sampled rows, but the code returns no rows. -/
theorem sample_files_sourcetype_counterexample :
    sample_files reDotCsvEnd (fun _ => ([] : List String))
        [{ message_id := "1", internal_date := 1, attachment_list := some [],
           url_list := some [⟨"1", "http://x/file.csv"⟩] }]
        10 1000 5
      = some []
    ∧ sample_files_spec reDotCsvEnd (fun _ => ([] : List String)) (fun _ => ["row1"])
        [{ message_id := "1", internal_date := 1, attachment_list := some [],
           url_list := some [⟨"1", "http://x/file.csv"⟩] }]
        SourceType.url 10 1000 5
      = ["row1"]
    ∧ sample_files reDotCsvEnd (fun _ => ([] : List String))
        [{ message_id := "1", internal_date := 1, attachment_list := some [],
           url_list := some [⟨"1", "http://x/file.csv"⟩] }]
        10 1000 5
      ≠ some (sample_files_spec reDotCsvEnd (fun _ => ([] : List String)) (fun _ => ["row1"])
          [{ message_id := "1", internal_date := 1, attachment_list := some [],
             url_list := some [⟨"1", "http://x/file.csv"⟩] }]
          SourceType.url 10 1000 5) := by
  refine ⟨by decide, by decide, by decide⟩

/-- C7 (corrected): `sample_files` iterates the messages in the given
order and always selects the attachment list (URL sources are not
implemented); every attachment whose display name matches the pattern is
retrieved and sampled in order, and a single global counter of sampled
resources — not a per-message counter — stops the entire scan once it
reaches `maxFiles ≥ 1`: the output is exactly the per-file samples of the
first `maxFiles` matching attachments across all messages. -/
theorem sample_files_attachment_take {α : Type} (r : Regex) (rowsOf : Attachment → List α)
    (msgs : List Message) (rate maxRec maxFiles : Nat)
    (hrate : 1 ≤ rate) (hmax : 1 ≤ maxFiles)
    (hatt : ∀ m ∈ msgs, m.attachment_list ≠ none) :
    sample_files r rowsOf msgs rate maxRec maxFiles
      = some (((msgs.flatMap (fun m => (m.attachment_list.getD []).filter
            (fun a => re_search r a.attachment_name))).take maxFiles).flatMap
          (fun a => sampleGo rate maxRec (rowsOf a) 0 0)) := by
  unfold sample_files
  rw [sampleFilesOuter_take r rowsOf rate maxRec maxFiles hrate msgs 0 (by omega) hatt,
    Nat.sub_zero]

/-- Witness for C7: two messages with two attachments each, pattern
`\.csv$`, `maxFiles = 2`: the scan samples a.csv of message 1 and b.csv of
message 2 (the global counter spans messages) and stops before c.csv. -/
theorem sample_files_attachment_take_witness :
    sample_files reDotCsvEnd
        (fun a => if a.attachment_name = "a.csv" then ["x1", "x2"] else ["y1"])
        [{ message_id := "1", internal_date := 1,
           attachment_list := some [⟨"1", "7", "a.csv"⟩, ⟨"1", "8", "skip.txt"⟩] },
         { message_id := "2", internal_date := 2,
           attachment_list := some [⟨"2", "9", "b.csv"⟩, ⟨"2", "10", "c.csv"⟩] }]
        1 10 2
      = some ["x1", "x2", "y1"] := by
  have h := sample_files_attachment_take reDotCsvEnd
    (fun a => if a.attachment_name = "a.csv" then ["x1", "x2"] else ["y1"])
    [{ message_id := "1", internal_date := 1,
       attachment_list := some [⟨"1", "7", "a.csv"⟩, ⟨"1", "8", "skip.txt"⟩] },
     { message_id := "2", internal_date := 2,
       attachment_list := some [⟨"2", "9", "b.csv"⟩, ⟨"2", "10", "c.csv"⟩] }]
    1 10 2 (by decide) (by decide) (by decide)
  rw [h]
  decide


theorem add_file_extension_suffix (name ext : String) :
    (("." ++ ext).data).isSuffixOf (add_file_extension name ext).data = true := by
  unfold add_file_extension
  by_cases h : (("." ++ ext).data).isSuffixOf (pyStrip name.data) = true
  · rw [if_pos h]
    exact h
  · rw [if_neg h]
    rw [List.isSuffixOf_iff_suffix]
    exact List.suffix_append _ _

/-- C6 (confirmed): URL filename resolution follows the three-step
fallback in order — headers are read by a header-only request (modelled as
the `headers` input), a truthy `filename=` token of `content-disposition`
wins, else the URL's final path segment with any `?query` suffix stripped —
the fetch fails with `FileNameCannotBeEvaluatedException` (the spec's
`FileNameUnresolvable`) if and only if no candidate filename exists after
these steps, and when the content type maps to a known extension the
resolved name always ends with `.extension` (appended when missing). -/
theorem url_filename_resolution_spec (headers : HttpHeaders) (url : String) :
    (get_file_name headers url = Except.error .fileNameCannotBeEvaluated
       ↔ candidate_file_name headers url = none)
    ∧ (candidate_file_name headers url = none
       ↔ ((get_filename_from_headers headers = none
            ∨ get_filename_from_headers headers = some "")
          ∧ get_filename_from_url url = none))
    ∧ (∀ s, get_filename_from_headers headers = some s → s ≠ "" →
        get_file_name headers url
          = Except.ok (apply_extension_step (check_url_file_type headers) s))
    ∧ ((get_filename_from_headers headers = none
        ∨ get_filename_from_headers headers = some "") →
       ∀ s, get_filename_from_url url = some s →
        get_file_name headers url
          = Except.ok (apply_extension_step (check_url_file_type headers) s))
    ∧ (∀ ext f, check_url_file_type headers = some ext →
        get_file_name headers url = Except.ok f →
        (("." ++ ext).data).isSuffixOf f.data = true) := by
  refine ⟨?_, ?_, ?_, ?_, ?_⟩
  · unfold get_file_name
    cases hc : candidate_file_name headers url with
    | none => simp
    | some s => simp
  · unfold candidate_file_name
    cases hh : get_filename_from_headers headers with
    | none => simp
    | some s =>
      by_cases hs : s = ""
      · subst hs
        simp
      · simp [hs]
  · intro s hh hs
    unfold get_file_name candidate_file_name
    rw [hh]
    dsimp only
    rw [if_neg hs]
  · intro hh s hu
    unfold get_file_name candidate_file_name
    rcases hh with hh | hh
    · rw [hh]
      dsimp only
      rw [hu]
    · rw [hh]
      dsimp only
      rw [if_pos rfl, hu]
  · intro ext f hext hok
    unfold get_file_name at hok
    cases hc : candidate_file_name headers url with
    | none => rw [hc] at hok; exact absurd hok (by simp)
    | some s =>
      rw [hc] at hok
      have hf : f = apply_extension_step (check_url_file_type headers) s := by
        simpa using hok.symm
      rw [hf, hext]
      unfold apply_extension_step
      exact add_file_extension_suffix s ext

/-- Witness for C6: `filename=report.csv` in the disposition wins;
without a disposition the URL segment `export.csv` (query stripped) is
used; `content-type: text/csv` appends `.csv` to a name lacking it; a URL
with no slash and no disposition fails. -/
theorem url_filename_resolution_spec_witness :
    get_file_name ⟨"text/csv", some "attachment; filename=report.csv"⟩ "https://h/x"
        = Except.ok "report.csv"
    ∧ get_file_name ⟨"", none⟩ "https://h/data/export.csv?x=1" = Except.ok "export.csv"
    ∧ get_file_name ⟨"text/csv", none⟩ "https://h/data/export?x=1" = Except.ok "export.csv"
    ∧ get_file_name ⟨"", none⟩ "nofilehere" = Except.error .fileNameCannotBeEvaluated := by
  refine ⟨?_, ?_, ?_, ?_⟩
  · have h := (url_filename_resolution_spec
      ⟨"text/csv", some "attachment; filename=report.csv"⟩ "https://h/x").2.2.1
      "report.csv" (by decide) (by decide)
    rw [h]
    exact congrArg Except.ok (by decide)
  · have h := (url_filename_resolution_spec ⟨"", none⟩ "https://h/data/export.csv?x=1").2.2.2.1
      (Or.inl (by decide)) "export.csv" (by decide)
    rw [h]
    exact congrArg Except.ok (by decide)
  · have h := (url_filename_resolution_spec ⟨"text/csv", none⟩ "https://h/data/export?x=1").2.2.2.1
      (Or.inl (by decide)) "export" (by decide)
    rw [h]
    exact congrArg Except.ok (by decide)
  · have h := (url_filename_resolution_spec ⟨"", none⟩ "nofilehere").1
    exact h.mpr (by decide)


/-- C2 (confirmed, spec-modelled): the Message Resolver builds the URL list
by locating the HTML body part, decoding it and extracting every hyperlink
target matched by the anchor pattern (either quote character, extra
attributes before `href` tolerated), keeping duplicates in document order;
every such hyperlink appears in the Message's `url_list`.  The URL-building
helpers are modelled from the specification because their implementation is
absent from `src/` (its unit tests remain). -/
theorem message_resolver_url_list_spec (decode : String → String) (raw : RawMessage)
    (p : RawPart) (data : String)
    (hfind : raw.parts.find? (fun q => q.mimeType == "text/html") = some p)
    (hbody : p.bodyData = some data) :
    (convert_to_message_obj decode raw).url_list
        = some ((extract_href_from_html (decode data)).map (fun u => (⟨raw.id, u⟩ : Url)))
    ∧ ∀ u ∈ extract_href_from_html (decode data),
        (⟨raw.id, u⟩ : Url) ∈ ((convert_to_message_obj decode raw).url_list.getD []) := by
  have h1 : convert_to_url_list decode raw
      = (extract_href_from_html (decode data)).map (fun u => (⟨raw.id, u⟩ : Url)) := by
    unfold convert_to_url_list
    rw [hfind]
    dsimp only
    rw [hbody]
  constructor
  · show some (convert_to_url_list decode raw) = _
    rw [h1]
  · intro u hu
    show (⟨raw.id, u⟩ : Url) ∈ (some (convert_to_url_list decode raw)).getD []
    rw [h1]
    exact List.mem_map_of_mem _ hu

/-- Witness for C2: a raw message shaped like the unit-test fixture whose
HTML part holds one plain anchor, one anchor with an extra attribute before
`href`, and a duplicate target: all three extracted hyperlinks, duplicate
included, appear in the resolved `url_list` in order. -/
theorem message_resolver_url_list_spec_witness :
    (convert_to_message_obj id
        { id := "17", internalDate := 1583013578000, labelIds := some ["INBOX"],
          parts :=
            [{ filename := "", attachmentId := none, mimeType := "multipart/alternative",
               bodyData := none },
             { filename := "", attachmentId := none, mimeType := "text/html",
               bodyData := some "<a href=\"http://www.test1.com\">click</a> <a class=\"b\" href=\"http://dup\">x</a> <a href=\"http://dup\">y</a>" },
             { filename := "MOCK_DATA.csv", attachmentId := some "att-1",
               mimeType := "application/vnd.ms-excel", bodyData := none }],
          headers := [("To", "to.me@x"), ("From", "from@x"), ("Subject", "s")] }).url_list
      = some [⟨"17", "http://www.test1.com"⟩, ⟨"17", "http://dup"⟩, ⟨"17", "http://dup"⟩]
    ∧ (⟨"17", "http://dup"⟩ : Url) ∈
        ((convert_to_message_obj id
          { id := "17", internalDate := 1583013578000, labelIds := some ["INBOX"],
            parts :=
              [{ filename := "", attachmentId := none, mimeType := "multipart/alternative",
                 bodyData := none },
               { filename := "", attachmentId := none, mimeType := "text/html",
                 bodyData := some "<a href=\"http://www.test1.com\">click</a> <a class=\"b\" href=\"http://dup\">x</a> <a href=\"http://dup\">y</a>" },
               { filename := "MOCK_DATA.csv", attachmentId := some "att-1",
                 mimeType := "application/vnd.ms-excel", bodyData := none }],
            headers := [("To", "to.me@x"), ("From", "from@x"), ("Subject", "s")] }).url_list.getD []) := by
  have h := message_resolver_url_list_spec id
    { id := "17", internalDate := 1583013578000, labelIds := some ["INBOX"],
      parts :=
        [{ filename := "", attachmentId := none, mimeType := "multipart/alternative",
           bodyData := none },
         { filename := "", attachmentId := none, mimeType := "text/html",
           bodyData := some "<a href=\"http://www.test1.com\">click</a> <a class=\"b\" href=\"http://dup\">x</a> <a href=\"http://dup\">y</a>" },
         { filename := "MOCK_DATA.csv", attachmentId := some "att-1",
           mimeType := "application/vnd.ms-excel", bodyData := none }],
      headers := [("To", "to.me@x"), ("From", "from@x"), ("Subject", "s")] }
    { filename := "", attachmentId := none, mimeType := "text/html",
      bodyData := some "<a href=\"http://www.test1.com\">click</a> <a class=\"b\" href=\"http://dup\">x</a> <a href=\"http://dup\">y</a>" }
    "<a href=\"http://www.test1.com\">click</a> <a class=\"b\" href=\"http://dup\">x</a> <a href=\"http://dup\">y</a>"
    (by decide) (by decide)
  constructor
  · rw [h.1]
    decide
  · exact h.2 "http://dup" (by decide)


theorem dictGet_map_replace_ne (k k2 v : String) (hne : k ≠ k2) :
    ∀ d : XDict, dictGet (d.map (fun p => if p.1 == k2 then (k2, v) else p)) k = dictGet d k := by
  intro d
  induction d with
  | nil => rfl
  | cons p rest ih =>
    by_cases hp : p.1 == k2
    · have hp1 : p.1 = k2 := by simpa using hp
      simp only [List.map_cons, hp, if_true, dictGet, List.find?]
      have h1 : ((k2, v).1 == k) = false := by
        simp [Ne.symm hne]
      have h2 : (p.1 == k) = false := by
        simp [hp1, Ne.symm hne]
      rw [h1, h2]
      exact ih
    · simp only [List.map_cons, hp, Bool.false_eq_true, if_false, dictGet, List.find?]
      by_cases hk : p.1 == k
      · rw [hk]
      · have hk2 : (p.1 == k) = false := by simpa using hk
        rw [hk2]
        exact ih

theorem dictGet_append_ne (k k2 v : String) (hne : k ≠ k2) :
    ∀ d : XDict, dictGet (d ++ [(k2, v)]) k = dictGet d k := by
  intro d
  induction d with
  | nil =>
    have h1 : ((k2, v).1 == k) = false := by
      simp [Ne.symm hne]
    simp [dictGet, List.find?, h1]
  | cons p rest ih =>
    simp only [List.cons_append, dictGet, List.find?]
    by_cases hk : p.1 == k
    · rw [hk]
    · have hk2 : (p.1 == k) = false := by simpa using hk
      rw [hk2]
      exact ih

theorem dictGet_dictSet_ne (k k2 v : String) (hne : k ≠ k2) (d : XDict) :
    dictGet (dictSet d k2 v) k = dictGet d k := by
  unfold dictSet
  by_cases h : d.any (fun p => p.1 == k2)
  · rw [if_pos h]
    exact dictGet_map_replace_ne k k2 v hne d
  · rw [if_neg h]
    exact dictGet_append_ne k k2 v hne d

theorem generator_stale_carry (header : List String) (d : XDict) (row : List String)
    (k : String) (hk : k ∉ (header.zip row).map (fun hc => formatted_key hc.1)) :
    dictGet (processRowCore header d row) k = dictGet d k := by
  unfold processRowCore
  generalize hp : header.zip row = pairs at hk
  clear hp
  induction pairs generalizing d with
  | nil => rfl
  | cons pr rest ih =>
    rw [List.foldl_cons]
    have hk1 : k ≠ formatted_key pr.1 := by
      intro h
      exact hk (by simp [h])
    have hk2 : k ∉ rest.map (fun hc => formatted_key hc.1) := by
      intro h
      exact hk (List.mem_cons_of_mem _ h)
    rw [ih (dictSet d (formatted_key pr.1) pr.2) hk2]
    exact dictGet_dictSet_ne k (formatted_key pr.1) pr.2 hk1 d

/-- C10 (confirmed): the spreadsheet row generator mutates one shared dict
in place and yields it for every data row — a field whose normalized header
key is not among the keys written by the current row keeps the previous
row's value (stale carry-over), the list a consumer builds from the
exhausted generator holds the final contents in every position, and over
header [A, B] with rows [1, 2] then [3] the second emitted row still maps
"b" to "2" while every collected row aliases the final contents. -/
theorem generator_shared_dict_spec :
    (∀ (header : List String) (d : XDict) (row : List String) (k : String),
      k ∉ (header.zip row).map (fun hc => formatted_key hc.1) →
      dictGet (processRowCore header d row) k = dictGet d k)
    ∧ (∀ (reader : List (List String)) (d : XDict) (n : Nat),
        generator_wrapper_run reader = some (d, n) →
        generator_wrapper_collect reader = some (List.replicate n d))
    ∧ generator_wrapper_snapshots [["A", "B"], ["1", "2"], ["3"]]
        = some [[("a", "1"), ("b", "2")], [("a", "3"), ("b", "2")]]
    ∧ generator_wrapper_collect [["A", "B"], ["1", "2"], ["3"]]
        = some [[("a", "3"), ("b", "2")], [("a", "3"), ("b", "2")]] := by
  refine ⟨generator_stale_carry, ?_, by decide, by decide⟩
  intro reader d n h
  unfold generator_wrapper_collect
  rw [h]

/-- Witness for C10: merging the one-cell row [3] over the dict left by
row [1, 2] keeps the stale value of "b", and collecting the two-row
workbook returns the final dict twice. -/
theorem generator_shared_dict_spec_witness :
    dictGet (processRowCore ["A", "B"] [("a", "1"), ("b", "2")] ["3"]) "b" = some "2"
    ∧ generator_wrapper_collect [["A", "B"], ["1", "2"], ["3"]]
        = some (List.replicate 2 [("a", "3"), ("b", "2")]) := by
  constructor
  · have h := generator_shared_dict_spec.1 ["A", "B"] [("a", "1"), ("b", "2")] ["3"] "b"
      (by decide)
    rw [h]
    decide
  · exact generator_shared_dict_spec.2.1 [["A", "B"], ["1", "2"], ["3"]]
      [("a", "3"), ("b", "2")] 2 (by decide)

end TapGmailCsv
